import Mathlib

set_option allowUnsafeReducibility true
attribute [semireducible] Rat.mul Rat.inv Rat.add Rat.sub Rat.ofScientific

/-!
# Verification of `thesistools.py`

A shallow embedding of the SI-prefix number formatter `formatSI` and of the
curve-annotation helpers `Curve.plot_line`, `Curve.draw_connecting_hline` and
`Curve.draw_connecting_vline` from `src/thesistools.py`, together with proofs
of the specification claims about them.

Python floats are modelled as exact rationals (`ℚ`); the decimal rounding
performed by Python string formatting (`f-strings` with `e`/`g` conversions)
is modelled as exact decimal rounding with round-half-to-even ties, on the
rational value.
-/

namespace ThesisTools

/-- Round-half-to-even of a rational to an integer, the rounding mode used by
Python float formatting on the decimal expansion. -/
def rhe (q : ℚ) : ℤ :=
  if q - ⌊q⌋ < 1/2 then ⌊q⌋
  else if 1/2 < q - ⌊q⌋ then ⌊q⌋ + 1
  else if ⌊q⌋ % 2 = 0 then ⌊q⌋ else ⌊q⌋ + 1

/-- Fuel-driven floor logarithm on rationals: for `0 < q` and `2 ≤ b`, with
enough fuel, returns the unique `e` with `b ^ e ≤ q < b ^ (e + 1)`.
Structural recursion on the fuel keeps it kernel-reducible. -/
def flogAux (b : ℚ) : ℕ → ℚ → ℤ
  | 0, _ => 0
  | f + 1, q =>
    if q < 1 then flogAux b f (q * b) - 1
    else if q < b then 0
    else flogAux b f (q / b) + 1

/-- Floor logarithm base `b` of a positive rational, the exact counterpart of
`np.floor(np.log q / np.log b)` in the source. -/
def flog (b : ℚ) (q : ℚ) : ℤ :=
  flogAux b (q.den + q.num.natAbs) q

/-- Models `float(f'{q:.{p}e}')` from line 105 of the source: round `q` to
`p` digits after the decimal point in scientific notation, i.e. to `p + 1`
significant decimal digits. -/
def roundE (p : ℕ) (q : ℚ) : ℚ :=
  if q = 0 then 0
  else
    (if q < 0 then (-1 : ℚ) else 1) *
      (rhe (|q| * (10 : ℚ) ^ ((p : ℤ) - flog 10 |q|)) : ℚ) *
      (10 : ℚ) ^ (flog 10 |q| - p)

/-- `baseThousand` from line 106 of the source, computed on the rounded
value: `np.floor(np.log(abs(number))/np.log(1e3))`. -/
def baseThousand (precision : ℕ) (number : ℚ) : ℤ :=
  flog 1000 |roundE precision number|

/-- `shortenedDigits` from line 113 of the source:
`number / (1e3 ** baseThousand)` with `number` already rounded. -/
def shortenedDigits (precision : ℕ) (number : ℚ) : ℚ :=
  roundE precision number / (1000 : ℚ) ^ baseThousand precision number

/-- `prefixDict` from lines 115-120 of the source.  The source keys the
dictionary by the sign-and-digit string `f'{int(baseThousand):+1d}'`, which is
in bijection with the integer exponent; we key by the integer directly. -/
def prefixDict : ℤ → Option String := fun e =>
  if e = -4 then some "p"
  else if e = -3 then some "n"
  else if e = -2 then some "μ"
  else if e = -1 then some "m"
  else if e = 0 then some ""
  else if e = 1 then some "k"
  else if e = 2 then some "M"
  else if e = 3 then some "G"
  else if e = 4 then some "T"
  else none

/-- Strip trailing decimal zeros from a natural number (fuel-driven so that it
stays kernel-reducible). -/
def stzAux : ℕ → ℕ → ℕ
  | 0, n => n
  | f + 1, n => if n % 10 = 0 ∧ n ≠ 0 then stzAux f (n / 10) else n

/-- Strip trailing decimal zeros: `stz 1230 = 123`, `stz 0 = 0`. -/
def stz (n : ℕ) : ℕ :=
  stzAux n n

/-- The `g` conversion of Python string formatting on a positive rational:
round to `p` significant digits, then use fixed-point notation when the
decimal exponent `e` satisfies `-4 ≤ e < p` and scientific notation (with an
exponent of at least two digits) otherwise, stripping trailing zeros. -/
def formatPosG (p : ℕ) (q : ℚ) : String :=
  let r := roundE (p - 1) q
  let e : ℤ := flog 10 r
  let m : ℕ := (r * (10 : ℚ) ^ ((p : ℤ) - 1 - e)).num.toNat
  let ds : List Char := (Nat.repr (stz m)).data
  if -4 ≤ e ∧ e < (p : ℤ) then
    if 0 ≤ e then
      let intLen := e.toNat + 1
      if ds.length ≤ intLen then
        String.mk (ds ++ List.replicate (intLen - ds.length) '0')
      else
        String.mk (ds.take intLen ++ '.' :: ds.drop intLen)
    else
      String.mk ('0' :: '.' :: (List.replicate (-(e + 1)).toNat '0' ++ ds))
  else
    let mant : List Char :=
      match ds with
      | [] => []
      | [c] => [c]
      | c :: cs => c :: '.' :: cs
    let eAbs := Nat.repr e.natAbs
    let eStr := if eAbs.length < 2 then "0" ++ eAbs else eAbs
    String.mk mant ++ "e" ++ (if e < 0 then "-" else "+") ++ eStr

/-- Models the Python format conversion `f'{q:.{p}g}'` on a rational value:
zero prints as `"0"`, a negative value as `"-"` followed by the rendering of
its absolute value (a precision of 0 is treated as 1, as in Python). -/
def formatG (p : ℕ) (q : ℚ) : String :=
  if q = 0 then "0"
  else (if q < 0 then "-" else "") ++ formatPosG (max p 1) |q|

/-- Alignment of a Python format-spec, `<`, `>` or `^`. -/
inductive Align
  | left
  | right
  | center

/-- The fill/align/width part of a Python format mini-language spec, the `s`
argument of `formatSI` (it is spliced in front of `.{precision}g`). -/
structure FormatSpec where
  fill : Char
  align : Align
  width : ℕ

/-- The empty format spec `''`, the default argument of `formatSI`. -/
def FormatSpec.empty : FormatSpec :=
  { fill := ' ', align := Align.right, width := 0 }

/-- Padding of a formatted value to the requested field width, as done by the
Python format mini-language (numbers align right by default). -/
def pad (sp : FormatSpec) (t : String) : String :=
  if sp.width ≤ t.length then t
  else
    let n := sp.width - t.length
    match sp.align with
    | Align.left => t ++ String.mk (List.replicate n sp.fill)
    | Align.right => String.mk (List.replicate n sp.fill) ++ t
    | Align.center =>
        String.mk (List.replicate (n / 2) sp.fill) ++ t ++
          String.mk (List.replicate (n - n / 2) sp.fill)

/-- Models `f'{q:{s}.{precision}g}'`: render with the `g` conversion at the
given precision, then pad to the field width of the spec. -/
def formatNum (s : FormatSpec) (precision : ℕ) (q : ℚ) : String :=
  pad s (formatG precision q)

/-- `formatSI` from lines 97-125 of the source.  `number` is modelled as an
exact rational, `s` as the fill/align/width format spec. -/
def formatSI (number : ℚ) (precision : ℕ) (s : FormatSpec) : String :=
  if number = 0 then formatNum s precision 0 ++ " "
  else
    match prefixDict (baseThousand precision number) with
    | some sym => formatNum s precision (shortenedDigits precision number) ++ " " ++ sym
    | none => formatNum s precision (roundE precision number) ++ " "

/-! ## Curve helpers

The `Curve` class holds an axis and a function `func`; its methods issue
drawing primitives to the plotting library.  We model the library as a sink
of primitives plus the view limits of the axis. -/

/-- A drawing primitive issued to the plotting library. -/
inductive DrawCmd
  | line (p q : ℚ × ℚ)
  | vline (x ymin ymax : ℚ)
  | hline (y xmin xmax : ℚ)
  | text (label : String) (xy : ℚ × ℚ)

/-- A Python exception. -/
inductive PyErr
  | nameError (name : String)
deriving DecidableEq

/-- How a method call finished: a normal return, or an uncaught exception. -/
inductive Outcome
  | normal
  | raised (e : PyErr)
deriving DecidableEq

/-- Result of a `Curve` method call: the drawing primitives issued before the
call finished, and how it finished. -/
structure PlotResult where
  effects : List DrawCmd
  outcome : Outcome

/-- `Curve.plot_line` from lines 148-171 of the source.  The two statements
`if pos is None: Return` and `if label is None: Return` evaluate the unbound
capitalized name `Return`, which in Python raises a `NameError` instead of
returning early. -/
def plot_line (func : ℚ → ℚ) (min_ max_ : ℚ) (pos : Option ℚ)
    (label : Option String) : PlotResult :=
  let y_min := func min_
  let y_max := func max_
  let drawn : List DrawCmd := [DrawCmd.line (min_, y_min) (max_, y_max)]
  match pos with
  | none => { effects := drawn, outcome := Outcome.raised (PyErr.nameError "Return") }
  | some p =>
    let y_label := (y_max - y_min) * p + y_min
    let x_label := (max_ - min_) * p + min_
    match label with
    | none => { effects := drawn, outcome := Outcome.raised (PyErr.nameError "Return") }
    | some l =>
      { effects := drawn ++ [DrawCmd.text l (x_label, y_label)],
        outcome := Outcome.normal }

/-- The observable state of a matplotlib axis: its x and y view limits and
the drawing primitives added so far. -/
structure AxState where
  xlim : ℚ × ℚ
  ylim : ℚ × ℚ
  drawn : List DrawCmd

/-- `Curve.draw_connecting_hline` from lines 174-195 of the source.
`autoscale` models the plotting library's freedom to rescale both view
limits when `ax.vlines` adds the line (the source comments that "adding the
vline may shift the axis" and restores `ylim` afterwards). -/
def draw_connecting_hline (autoscale : AxState → (ℚ × ℚ) × (ℚ × ℚ))
    (func : ℚ → ℚ) (x : ℚ) (label : Option String) (pos : ℚ)
    (ax : AxState) : AxState :=
  let min_y := ax.ylim.1
  let max_y := ax.ylim.2
  let curve_y := func x
  -- ax.vlines(x, min_y, curve_y, **fmt)
  let axDrawn : AxState := { ax with drawn := ax.drawn ++ [DrawCmd.vline x min_y curve_y] }
  let ax1 : AxState :=
    { axDrawn with xlim := (autoscale axDrawn).1, ylim := (autoscale axDrawn).2 }
  -- ax.set_ylim(min_y, max_y)
  let ax2 : AxState := { ax1 with ylim := (min_y, max_y) }
  match label with
  | none => ax2
  | some l =>
    let label_y := (curve_y - min_y) * pos + min_y
    { ax2 with drawn := ax2.drawn ++ [DrawCmd.text l (x, label_y)] }

/-- `Curve.draw_connecting_vline` from lines 197-218 of the source.  After
the `if label is None: return` line the remaining body is entirely commented
out, so the result does not depend on `label` or `pos`. -/
def draw_connecting_vline (autoscale : AxState → (ℚ × ℚ) × (ℚ × ℚ))
    (func : ℚ → ℚ) (x : ℚ) (_label : Option String) (_pos : ℚ)
    (ax : AxState) : AxState :=
  let min_x := ax.xlim.1
  let max_x := ax.xlim.2
  let curve_y := func x
  -- ax.hlines(curve_y, min_x, x, **fmt)
  let axDrawn : AxState := { ax with drawn := ax.drawn ++ [DrawCmd.hline curve_y min_x x] }
  let ax1 : AxState :=
    { axDrawn with xlim := (autoscale axDrawn).1, ylim := (autoscale axDrawn).2 }
  -- ax.set_xlim(min_x, max_x)
  { ax1 with xlim := (min_x, max_x) }

/-! ## Supporting lemmas -/

theorem flogAux_base {b : ℚ} (fuel : ℕ) {q : ℚ} (h1 : 1 ≤ q) (h2 : q < b) :
    flogAux b fuel q = 0 := by
  cases fuel <;> simp [flogAux, not_lt.2 h1, h2]

theorem flogAux_up {b : ℚ} (hb : 2 ≤ b) :
    ∀ (fuel : ℕ) (q : ℚ), 1 ≤ q → q < b ^ (fuel : ℤ) →
      b ^ flogAux b fuel q ≤ q ∧ q < b ^ (flogAux b fuel q + 1) := by
  have hb0 : (0:ℚ) < b := by linarith
  intro fuel
  induction fuel with
  | zero =>
    intro q h1 h2
    simp only [Nat.cast_zero, zpow_zero] at h2
    linarith
  | succ f ih =>
    intro q h1 h2
    by_cases hqb : q < b
    · rw [flogAux_base (f + 1) h1 hqb]
      constructor
      · simpa using h1
      · simpa using hqb
    · have hstep : flogAux b (f + 1) q = flogAux b f (q / b) + 1 := by
        simp [flogAux, not_lt.2 h1, hqb]
      have h1' : 1 ≤ q / b := (one_le_div hb0).2 (not_lt.1 hqb)
      have h2' : q / b < b ^ (f : ℤ) := by
        rw [div_lt_iff hb0]
        calc q < b ^ ((f : ℤ) + 1) := by
                  have : ((f + 1 : ℕ) : ℤ) = (f : ℤ) + 1 := by push_cast; ring
                  rwa [this] at h2
          _ = b ^ (f : ℤ) * b := by rw [zpow_add_one₀ hb0.ne']
      obtain ⟨l1, l2⟩ := ih (q / b) h1' h2'
      rw [hstep]
      constructor
      · rw [zpow_add_one₀ hb0.ne']
        calc b ^ flogAux b f (q / b) * b ≤ q / b * b := by
              exact mul_le_mul_of_nonneg_right l1 hb0.le
          _ = q := div_mul_cancel₀ q hb0.ne'
      · have : q / b * b < b ^ (flogAux b f (q / b) + 1) * b :=
          mul_lt_mul_of_pos_right l2 hb0
        rw [div_mul_cancel₀ q hb0.ne'] at this
        calc q < b ^ (flogAux b f (q / b) + 1) * b := this
          _ = b ^ (flogAux b f (q / b) + 1 + 1) := (zpow_add_one₀ hb0.ne' _).symm

theorem flogAux_down {b : ℚ} (hb : 2 ≤ b) :
    ∀ (fuel : ℕ) (q : ℚ), 0 < q → q < 1 → 1 ≤ q * b ^ (fuel : ℤ) →
      b ^ flogAux b fuel q ≤ q ∧ q < b ^ (flogAux b fuel q + 1) := by
  have hb0 : (0:ℚ) < b := by linarith
  intro fuel
  induction fuel with
  | zero =>
    intro q hq h1 h2
    simp only [Nat.cast_zero, zpow_zero, mul_one] at h2
    linarith
  | succ f ih =>
    intro q hq h1 h2
    have hstep : flogAux b (f + 1) q = flogAux b f (q * b) - 1 := by
      simp [flogAux, h1]
    rw [hstep]
    by_cases hq1 : q * b < 1
    · have h2' : 1 ≤ q * b * b ^ (f : ℤ) := by
        calc (1:ℚ) ≤ q * b ^ ((f:ℤ) + 1) := by
              have hc : ((f + 1 : ℕ) : ℤ) = (f : ℤ) + 1 := by push_cast; ring
              rwa [hc] at h2
          _ = q * b * b ^ (f : ℤ) := by
              rw [zpow_add_one₀ hb0.ne']; ring
      obtain ⟨l1, l2⟩ := ih (q * b) (mul_pos hq hb0) hq1 h2'
      constructor
      · rw [zpow_sub_one₀ hb0.ne', ← div_eq_mul_inv]
        calc b ^ flogAux b f (q * b) / b ≤ q * b / b := by gcongr
          _ = q := by field_simp
      · have hE : flogAux b f (q * b) - 1 + 1 = flogAux b f (q * b) := by ring
        rw [hE]
        have h3 : q < b ^ (flogAux b f (q * b) + 1) / b := by
          rw [lt_div_iff₀ hb0]; exact l2
        calc q < b ^ (flogAux b f (q * b) + 1) / b := h3
          _ = b ^ flogAux b f (q * b) := by
              rw [zpow_add_one₀ hb0.ne']; field_simp
    · have hqb : q * b < b := by
        calc q * b < 1 * b := by gcongr
          _ = b := one_mul b
      rw [flogAux_base f (not_lt.1 hq1) hqb]
      constructor
      · rw [zero_sub, zpow_neg_one]
        have h5 : 1 / b ≤ q * b / b := by gcongr; exact not_lt.1 hq1
        have h4 : q * b / b = q := by field_simp
        rw [one_div, h4] at h5
        exact h5
      · have hE : (0:ℤ) - 1 + 1 = 0 := by ring
        rw [hE, zpow_zero]
        exact h1

theorem flog_spec {b q : ℚ} (hb : 2 ≤ b) (hq : 0 < q) :
    b ^ flog b q ≤ q ∧ q < b ^ (flog b q + 1) := by
  have hb0 : (0:ℚ) < b := by linarith
  have hb1 : (1:ℚ) ≤ b := by linarith
  unfold flog
  rcases le_or_lt 1 q with h1 | h1
  · apply flogAux_up hb _ q h1
    have hnum : 0 < q.num := Rat.num_pos.2 (by linarith)
    have hqn : q ≤ (q.num.natAbs : ℚ) := by
      have hcast : ((q.num.natAbs : ℕ) : ℚ) = (q.num : ℚ) := by
        rw [Int.cast_natAbs]
        exact_mod_cast abs_of_pos hnum
      rw [hcast]
      nth_rewrite 1 [← Rat.num_div_den q]
      apply div_le_self (by positivity)
      exact_mod_cast Nat.succ_le_of_lt q.pos
    have hlt : (q.num.natAbs : ℚ) < 2 ^ q.num.natAbs := by
      exact_mod_cast Nat.lt_two_pow q.num.natAbs
    have h2b : (2:ℚ) ^ q.num.natAbs ≤ b ^ q.num.natAbs :=
      pow_le_pow_left (by norm_num) hb _
    have hmono : b ^ q.num.natAbs ≤ b ^ (q.den + q.num.natAbs) :=
      pow_le_pow_right hb1 (Nat.le_add_left _ _)
    calc q ≤ (q.num.natAbs : ℚ) := hqn
      _ < 2 ^ q.num.natAbs := hlt
      _ ≤ b ^ q.num.natAbs := h2b
      _ ≤ b ^ (q.den + q.num.natAbs) := hmono
      _ = b ^ ((q.den + q.num.natAbs : ℕ) : ℤ) := by rw [zpow_natCast]
  · apply flogAux_down hb _ q hq h1
    have hnum : 0 < q.num := Rat.num_pos.2 hq
    have hden : (0:ℚ) < (q.den : ℚ) := by exact_mod_cast q.pos
    have hql : 1 / (q.den : ℚ) ≤ q := by
      rw [div_le_iff₀ hden]
      have hqd : q * (q.den : ℚ) = (q.num : ℚ) := by
        nth_rewrite 1 [← Rat.num_div_den q]
        field_simp
      rw [hqd]
      exact_mod_cast hnum
    have hdlt : (q.den : ℚ) < 2 ^ q.den := by
      exact_mod_cast Nat.lt_two_pow q.den
    have h2b : (2:ℚ) ^ q.den ≤ b ^ q.den := pow_le_pow_left (by norm_num) hb _
    have hmono : b ^ q.den ≤ b ^ (q.den + q.num.natAbs) :=
      pow_le_pow_right hb1 (Nat.le_add_right _ _)
    have hbig : (q.den : ℚ) ≤ b ^ ((q.den + q.num.natAbs : ℕ) : ℤ) := by
      rw [zpow_natCast]
      calc (q.den : ℚ) ≤ 2 ^ q.den := hdlt.le
        _ ≤ b ^ q.den := h2b
        _ ≤ b ^ (q.den + q.num.natAbs) := hmono
    calc (1:ℚ) = (1 / (q.den : ℚ)) * (q.den : ℚ) := by field_simp
      _ ≤ q * b ^ ((q.den + q.num.natAbs : ℕ) : ℤ) := by
          apply mul_le_mul hql hbig hden.le (by linarith)

theorem flog_eq_of {b q : ℚ} (hb : 2 ≤ b) (hq : 0 < q) {e : ℤ}
    (h1 : b ^ e ≤ q) (h2 : q < b ^ (e + 1)) : flog b q = e := by
  obtain ⟨l1, l2⟩ := flog_spec hb hq
  by_contra hne
  rcases lt_or_gt_of_ne hne with hlt | hgt
  · have : (b:ℚ) ^ (flog b q + 1) ≤ b ^ e := zpow_le_zpow_right₀ (by linarith) (by omega)
    linarith
  · have : (b:ℚ) ^ (e + 1) ≤ b ^ flog b q := zpow_le_zpow_right₀ (by linarith) (by omega)
    linarith



theorem rhe_bounds (q : ℚ) : ⌊q⌋ ≤ rhe q ∧ rhe q ≤ ⌊q⌋ + 1 := by
  unfold rhe
  split_ifs <;> omega

theorem roundE_pos_bounds (p : ℕ) {q : ℚ} (hq : 0 < q) :
    (10:ℚ) ^ flog 10 q ≤ roundE p q ∧ roundE p q ≤ (10:ℚ) ^ (flog 10 q + 1) := by
  have h10 : (0:ℚ) < 10 := by norm_num
  obtain ⟨l1, l2⟩ := flog_spec (b := 10) (q := q) (by norm_num) hq
  have habs : |q| = q := abs_of_pos hq
  have hform : roundE p q
      = (rhe (q * (10:ℚ) ^ ((p:ℤ) - flog 10 q)) : ℚ) * (10:ℚ) ^ (flog 10 q - p) := by
    rw [roundE, if_neg hq.ne', habs, if_neg (not_lt.2 hq.le), one_mul]
  set e : ℤ := flog 10 q with he
  set y : ℚ := q * (10:ℚ) ^ ((p:ℤ) - e) with hy
  have hylo : (10:ℚ) ^ (p:ℤ) ≤ y := by
    have hstep : (10:ℚ) ^ e * (10:ℚ) ^ ((p:ℤ) - e) ≤ y :=
      mul_le_mul_of_nonneg_right l1 (by positivity)
    calc (10:ℚ) ^ (p:ℤ) = (10:ℚ) ^ (e + ((p:ℤ) - e)) := by
          rw [show e + ((p:ℤ) - e) = (p:ℤ) by ring]
      _ = (10:ℚ) ^ e * (10:ℚ) ^ ((p:ℤ) - e) := zpow_add₀ h10.ne' _ _
      _ ≤ y := hstep
  have hyhi : y < (10:ℚ) ^ ((p:ℤ) + 1) := by
    have hstep : y < (10:ℚ) ^ (e + 1) * (10:ℚ) ^ ((p:ℤ) - e) :=
      mul_lt_mul_of_pos_right l2 (by positivity)
    calc y < (10:ℚ) ^ (e + 1) * (10:ℚ) ^ ((p:ℤ) - e) := hstep
      _ = (10:ℚ) ^ ((p:ℤ) + 1) := by
          rw [← zpow_add₀ h10.ne', show e + 1 + ((p:ℤ) - e) = (p:ℤ) + 1 by ring]
  have hc1 : (((10:ℤ) ^ p : ℤ) : ℚ) = (10:ℚ) ^ (p:ℤ) := by
    push_cast
    rw [zpow_natCast]
  have hc2 : (((10:ℤ) ^ (p + 1) : ℤ) : ℚ) = (10:ℚ) ^ ((p:ℤ) + 1) := by
    push_cast
    rw [show ((p:ℤ) + 1) = ((p + 1 : ℕ) : ℤ) by push_cast; ring, zpow_natCast]
  have hfl : (10:ℤ) ^ p ≤ ⌊y⌋ := by
    apply Int.le_floor.2
    rw [hc1]
    exact hylo
  have hfu : ⌊y⌋ + 1 ≤ (10:ℤ) ^ (p + 1) := by
    have hlt : ⌊y⌋ < (10:ℤ) ^ (p + 1) := by
      apply Int.floor_lt.2
      rw [hc2]
      exact hyhi
    omega
  obtain ⟨r1, r2⟩ := rhe_bounds y
  have hrlo : ((10:ℚ) ^ (p:ℤ)) ≤ (rhe y : ℚ) := by
    rw [← hc1]
    exact_mod_cast le_trans hfl r1
  have hrhi : (rhe y : ℚ) ≤ (10:ℚ) ^ ((p:ℤ) + 1) := by
    rw [← hc2]
    exact_mod_cast le_trans r2 hfu
  rw [hform]
  constructor
  · calc (10:ℚ) ^ e = (10:ℚ) ^ (p:ℤ) * (10:ℚ) ^ (e - p) := by
          rw [← zpow_add₀ h10.ne', show (p:ℤ) + (e - p) = e by ring]
      _ ≤ (rhe y : ℚ) * (10:ℚ) ^ (e - p) :=
          mul_le_mul_of_nonneg_right hrlo (by positivity)
  · calc (rhe y : ℚ) * (10:ℚ) ^ (e - p) ≤ (10:ℚ) ^ ((p:ℤ) + 1) * (10:ℚ) ^ (e - p) :=
          mul_le_mul_of_nonneg_right hrhi (by positivity)
      _ = (10:ℚ) ^ (e + 1) := by
          rw [← zpow_add₀ h10.ne', show (p:ℤ) + 1 + (e - p) = e + 1 by ring]

theorem roundE_pos (p : ℕ) {q : ℚ} (hq : 0 < q) : 0 < roundE p q := by
  obtain ⟨l1, _⟩ := roundE_pos_bounds p hq
  have : (0:ℚ) < (10:ℚ) ^ flog 10 q := by positivity
  linarith

theorem roundE_neg (p : ℕ) (q : ℚ) : roundE p (-q) = -roundE p q := by
  by_cases h0 : q = 0
  · simp [roundE, h0]
  · have hne : -q ≠ 0 := neg_ne_zero.2 h0
    rcases lt_or_gt_of_ne h0 with h | h
    · rw [roundE, roundE, if_neg h0, if_neg hne, abs_neg,
        if_pos h, if_neg (by linarith : ¬ -q < 0)]
      ring
    · rw [roundE, roundE, if_neg h0, if_neg hne, abs_neg,
        if_neg (by linarith : ¬ q < 0), if_pos (by linarith : -q < 0)]
      ring

theorem abs_roundE (p : ℕ) (q : ℚ) : |roundE p q| = roundE p |q| := by
  rcases lt_trichotomy q 0 with h | h | h
  · rw [abs_of_neg h, roundE_neg]
    have hpos : 0 < roundE p (-q) := roundE_pos p (by linarith)
    rw [roundE_neg] at hpos
    rw [abs_of_neg (by linarith : roundE p q < 0)]
  · simp [h, roundE]
  · rw [abs_of_pos h, abs_of_pos (roundE_pos p h)]

theorem roundE_ne_zero (p : ℕ) {q : ℚ} (hq : q ≠ 0) : roundE p q ≠ 0 := by
  have : 0 < |roundE p q| := by
    rw [abs_roundE]
    exact roundE_pos p (abs_pos.2 hq)
  exact abs_pos.1 this



theorem shortened_bounds (p : ℕ) {x : ℚ} (hx : x ≠ 0) :
    1 ≤ |shortenedDigits p x| ∧ |shortenedDigits p x| < 1000 := by
  have hr : 0 < |roundE p x| := abs_pos.2 (roundE_ne_zero p hx)
  obtain ⟨l1, l2⟩ := flog_spec (b := 1000) (q := |roundE p x|) (by norm_num) hr
  have hpow : (0:ℚ) < (1000:ℚ) ^ baseThousand p x := by positivity
  rw [shortenedDigits, abs_div, abs_of_pos hpow]
  constructor
  · rw [le_div_iff₀ hpow, one_mul, baseThousand]
    exact l1
  · rw [div_lt_iff₀ hpow]
    calc |roundE p x| < (1000:ℚ) ^ (flog 1000 |roundE p x| + 1) := l2
      _ = 1000 * (1000:ℚ) ^ baseThousand p x := by
          rw [baseThousand, zpow_add_one₀ (by norm_num : (1000:ℚ) ≠ 0)]
          ring

theorem prefixDict_eq_none {e : ℤ} : prefixDict e = none ↔ e < -4 ∨ 4 < e := by
  unfold prefixDict
  split_ifs <;> simp_all <;> omega

theorem tier_promotion (p : ℕ) {x : ℚ} (h1 : 1 ≤ |x|) (h2 : |x| < 1000)
    (h3 : 1000 ≤ |roundE p x|) :
    baseThousand p x = 1 ∧ |shortenedDigits p x| = 1 := by
  have hx : x ≠ 0 := by
    intro h
    rw [h, abs_zero] at h1
    linarith
  have habs0 : 0 < |x| := by linarith
  have he2 : flog 10 |x| ≤ 2 := by
    obtain ⟨f1, _⟩ := flog_spec (b := 10) (q := |x|) (by norm_num) habs0
    by_contra hgt
    push_neg at hgt
    have hmono : (10:ℚ) ^ (3:ℤ) ≤ (10:ℚ) ^ flog 10 |x| :=
      zpow_le_zpow_right₀ (by norm_num) (by omega)
    have h1000 : (10:ℚ) ^ (3:ℤ) = 1000 := by norm_num
    linarith
  obtain ⟨_, u2⟩ := roundE_pos_bounds p habs0
  have hle : |roundE p x| ≤ 1000 := by
    rw [abs_roundE]
    calc roundE p |x| ≤ (10:ℚ) ^ (flog 10 |x| + 1) := u2
      _ ≤ (10:ℚ) ^ (3:ℤ) := zpow_le_zpow_right₀ (by norm_num) (by omega)
      _ = 1000 := by norm_num
  have heq : |roundE p x| = 1000 := le_antisymm hle h3
  have hbt : baseThousand p x = 1 := by
    rw [baseThousand, heq]
    apply flog_eq_of (by norm_num) (by norm_num)
    · norm_num
    · norm_num
  refine ⟨hbt, ?_⟩
  rw [shortenedDigits, abs_div, hbt, heq]
  norm_num

theorem pad_empty (t : String) : pad FormatSpec.empty t = t := by
  rw [pad]
  simp [FormatSpec.empty]

theorem formatG_neg (p : ℕ) {q : ℚ} (hq : 0 < q) :
    formatG p (-q) = "-" ++ formatG p q := by
  rw [formatG, formatG, if_neg (neg_ne_zero.2 hq.ne'), if_neg hq.ne',
    if_pos (neg_lt_zero.2 hq), if_neg (not_lt.2 hq.le), abs_neg,
    String.empty_append]

theorem baseThousand_neg (p : ℕ) (x : ℚ) : baseThousand p (-x) = baseThousand p x := by
  rw [baseThousand, baseThousand, roundE_neg, abs_neg]

theorem shortened_neg (p : ℕ) (x : ℚ) :
    shortenedDigits p (-x) = -shortenedDigits p x := by
  rw [shortenedDigits, shortenedDigits, roundE_neg, baseThousand_neg, neg_div]

theorem shortened_pos (p : ℕ) {x : ℚ} (hx : 0 < x) : 0 < shortenedDigits p x := by
  rw [shortenedDigits]
  apply div_pos (roundE_pos p hx) (by positivity)



theorem formatSI_of_some {x : ℚ} {p : ℕ} {s : FormatSpec} {sym : String} (hx : x ≠ 0)
    (h : prefixDict (baseThousand p x) = some sym) :
    formatSI x p s = formatNum s p (shortenedDigits p x) ++ " " ++ sym := by
  rw [formatSI, if_neg hx, h]

theorem formatSI_of_none {x : ℚ} {p : ℕ} {s : FormatSpec} (hx : x ≠ 0)
    (h : prefixDict (baseThousand p x) = none) :
    formatSI x p s = formatNum s p (roundE p x) ++ " " := by
  rw [formatSI, if_neg hx, h]

theorem append_space_ne_empty (t : String) : t ++ " " ≠ "" := by
  intro h
  have hl := congrArg String.length h
  rw [String.length_append] at hl
  have h1 : (" " : String).length = 1 := rfl
  have h0 : ("" : String).length = 0 := rfl
  rw [h1, h0] at hl
  omega

theorem append_ne_empty_left {t : String} (u : String) (h : t ≠ "") : t ++ u ≠ "" := by
  intro he
  apply h
  have hl := congrArg String.length he
  rw [String.length_append] at hl
  have h0 : ("" : String).length = 0 := rfl
  rw [h0] at hl
  have hlen : t.length = 0 := by omega
  cases t with
  | mk data =>
    cases data with
    | nil => rfl
    | cons c cs => simp [String.length] at hlen



/-- C1: for every nonzero input `x` with `1e-13 ≤ |x| < 1e13` at precision 3,
`formatSI` scales the (rounded) value by the power of 1000 given by the floor
of the base-1000 logarithm of its absolute value, and the resulting mantissa
`shortenedDigits` satisfies `1 ≤ |mantissa| < 1000`. -/
theorem formatSI_mantissa_bounds (x : ℚ) (hx : x ≠ 0)
    (hlo : 1 / 10 ^ 13 ≤ |x|) (hhi : |x| < 10 ^ 13) :
    shortenedDigits 3 x = roundE 3 x / (1000:ℚ) ^ flog 1000 |roundE 3 x| ∧
    1 ≤ |shortenedDigits 3 x| ∧ |shortenedDigits 3 x| < 1000 :=
  ⟨rfl, (shortened_bounds 3 hx).1, (shortened_bounds 3 hx).2⟩

theorem formatSI_mantissa_bounds_witness :
    (1234 : ℚ) ≠ 0 ∧ 1 / 10 ^ 13 ≤ |(1234 : ℚ)| ∧ |(1234 : ℚ)| < 10 ^ 13 ∧
      1 ≤ |shortenedDigits 3 1234| ∧ |shortenedDigits 3 1234| < 1000 :=
  ⟨by decide, by decide, by decide,
    (formatSI_mantissa_bounds 1234 (by decide) (by decide) (by decide)).2.1,
    (formatSI_mantissa_bounds 1234 (by decide) (by decide) (by decide)).2.2⟩

/-- C2, counterexample to the claim as stated: `999.6` rounds up to `1000`
at 3 significant digits, yet `formatSI` at precision 3 rounds with
`f'{number:.3e}'` (four significant digits, leaving `999.6` unchanged),
classifies it in tier 0 instead of the next tier, and renders `"1e+03 "`
(that is, 1000) in the lower, empty-prefix tier. -/
theorem formatSI_no_promotion_999_6 :
    roundE 2 (4998 / 5 : ℚ) = 1000 ∧
    roundE 3 (4998 / 5 : ℚ) = 4998 / 5 ∧
    baseThousand 3 (4998 / 5 : ℚ) = 0 ∧
    baseThousand 3 (4998 / 5 : ℚ) ≠ 1 ∧
    formatSI (4998 / 5 : ℚ) 3 FormatSpec.empty = "1e+03 " :=
  ⟨by decide, by decide, by decide, by decide, by decide⟩

/-- C2, amended: `formatSI` rounds `number` to `precision + 1` significant
digits (the format `.{precision}e` keeps `precision` digits after the point)
before computing its base-1000 magnitude class, so a value with
`1 ≤ |x| < 1000` that rounds up to the 1000 boundary at `precision + 1`
significant digits (e.g. `999.96` at precision 3, but not `999.6`) is
classified into the next prefix tier with mantissa magnitude 1, not
displayed as 1000 in the lower tier. -/
theorem formatSI_tier_promotion (p : ℕ) (x : ℚ) (h1 : 1 ≤ |x|) (h2 : |x| < 1000)
    (h3 : 1000 ≤ |roundE p x|) :
    baseThousand p x = flog 1000 |roundE p x| ∧
    baseThousand p x = 1 ∧ |shortenedDigits p x| = 1 :=
  ⟨rfl, (tier_promotion p h1 h2 h3).1, (tier_promotion p h1 h2 h3).2⟩

theorem formatSI_tier_promotion_witness :
    1 ≤ |(99996 / 100 : ℚ)| ∧ |(99996 / 100 : ℚ)| < 1000 ∧
      1000 ≤ |roundE 3 (99996 / 100 : ℚ)| ∧
      baseThousand 3 (99996 / 100 : ℚ) = 1 ∧ |shortenedDigits 3 (99996 / 100 : ℚ)| = 1 :=
  ⟨by decide, by decide, by decide,
    (formatSI_tier_promotion 3 (99996 / 100) (by decide) (by decide) (by decide)).2.1,
    (formatSI_tier_promotion 3 (99996 / 100) (by decide) (by decide) (by decide)).2.2⟩

/-- C3: `formatSI(999.96, 3, '')` undergoes rounding-driven tier promotion:
the rounded value reaches 1000, the base-1000 exponent becomes 1, the
mantissa becomes 1, and the result is `"1 k"` with the next tier's prefix
`k`, not the string `"1000 "` under the empty prefix. -/
theorem formatSI_999_96_tier_promoted :
    roundE 3 (99996 / 100 : ℚ) = 1000 ∧
    baseThousand 3 (99996 / 100 : ℚ) = 1 ∧
    shortenedDigits 3 (99996 / 100 : ℚ) = 1 ∧
    prefixDict (baseThousand 3 (99996 / 100 : ℚ)) = some "k" ∧
    formatSI (99996 / 100 : ℚ) 3 FormatSpec.empty = "1 k" ∧
    formatSI (99996 / 100 : ℚ) 3 FormatSpec.empty ≠ "1000 " :=
  ⟨by decide, by decide, by decide, by decide, by decide, by decide⟩

/-- C4: for every exponent tier `e ∈ {-4, ..., 4}`, `formatSI(1000^e, 3, '')`
yields mantissa 1 and exactly the tier's prefix symbol from the fixed table
p, n, μ, m, "" (empty), k, M, G, T, with the micro prefix rendered as the
Greek mu glyph and not the ASCII letter `u`. -/
theorem formatSI_round_trip_tiers :
    (shortenedDigits 3 ((1000:ℚ) ^ (-4 : ℤ)) = 1 ∧
      formatSI ((1000:ℚ) ^ (-4 : ℤ)) 3 FormatSpec.empty = "1 p") ∧
    (shortenedDigits 3 ((1000:ℚ) ^ (-3 : ℤ)) = 1 ∧
      formatSI ((1000:ℚ) ^ (-3 : ℤ)) 3 FormatSpec.empty = "1 n") ∧
    (shortenedDigits 3 ((1000:ℚ) ^ (-2 : ℤ)) = 1 ∧
      formatSI ((1000:ℚ) ^ (-2 : ℤ)) 3 FormatSpec.empty = "1 μ") ∧
    (shortenedDigits 3 ((1000:ℚ) ^ (-1 : ℤ)) = 1 ∧
      formatSI ((1000:ℚ) ^ (-1 : ℤ)) 3 FormatSpec.empty = "1 m") ∧
    (shortenedDigits 3 ((1000:ℚ) ^ (0 : ℤ)) = 1 ∧
      formatSI ((1000:ℚ) ^ (0 : ℤ)) 3 FormatSpec.empty = "1 ") ∧
    (shortenedDigits 3 ((1000:ℚ) ^ (1 : ℤ)) = 1 ∧
      formatSI ((1000:ℚ) ^ (1 : ℤ)) 3 FormatSpec.empty = "1 k") ∧
    (shortenedDigits 3 ((1000:ℚ) ^ (2 : ℤ)) = 1 ∧
      formatSI ((1000:ℚ) ^ (2 : ℤ)) 3 FormatSpec.empty = "1 M") ∧
    (shortenedDigits 3 ((1000:ℚ) ^ (3 : ℤ)) = 1 ∧
      formatSI ((1000:ℚ) ^ (3 : ℤ)) 3 FormatSpec.empty = "1 G") ∧
    (shortenedDigits 3 ((1000:ℚ) ^ (4 : ℤ)) = 1 ∧
      formatSI ((1000:ℚ) ^ (4 : ℤ)) 3 FormatSpec.empty = "1 T") ∧
    prefixDict (-2) = some "μ" ∧ "μ" ≠ "u" ∧
    formatSI ((1000:ℚ) ^ (-2 : ℤ)) 3 FormatSpec.empty ≠ "1 u" :=
  ⟨⟨by decide, by decide⟩, ⟨by decide, by decide⟩, ⟨by decide, by decide⟩,
    ⟨by decide, by decide⟩, ⟨by decide, by decide⟩, ⟨by decide, by decide⟩,
    ⟨by decide, by decide⟩, ⟨by decide, by decide⟩, ⟨by decide, by decide⟩,
    by decide, by decide, by decide⟩



/-- C5: for every nonzero input whose base-1000 exponent after rounding lies
outside `[-4, 4]`, `formatSI` appends no metric prefix and renders the
original rounded number (not rescaled) with the given precision and format
spec, followed by a single trailing space. -/
theorem formatSI_out_of_range (x : ℚ) (p : ℕ) (s : FormatSpec) (hx : x ≠ 0)
    (h : baseThousand p x < -4 ∨ 4 < baseThousand p x) :
    formatSI x p s = formatNum s p (roundE p x) ++ " " :=
  formatSI_of_none hx (prefixDict_eq_none.2 h)

theorem formatSI_out_of_range_witness :
    ((10:ℚ) ^ (20:ℕ) ≠ 0 ∧ 4 < baseThousand 3 ((10:ℚ) ^ (20:ℕ))) ∧
    formatSI ((10:ℚ) ^ (20:ℕ)) 3 FormatSpec.empty
      = formatNum FormatSpec.empty 3 (roundE 3 ((10:ℚ) ^ (20:ℕ))) ++ " " ∧
    formatSI ((10:ℚ) ^ (20:ℕ)) 3 FormatSpec.empty = "1e+20 " :=
  ⟨⟨by decide, by decide⟩,
    formatSI_out_of_range ((10:ℚ) ^ (20:ℕ)) 3 FormatSpec.empty (by decide)
      (Or.inr (by decide)),
    by decide⟩

/-- C6: for every positive precision `p` and format spec `s`,
`formatSI(0, p, s)` returns the zero value rendered through the format spec
(`"0"` padded to the field width), followed by a single trailing space, with
no prefix symbol. -/
theorem formatSI_zero (p : ℕ) (s : FormatSpec) (hp : 0 < p) :
    formatSI 0 p s = formatNum s p 0 ++ " " ∧ formatSI 0 p s = pad s "0" ++ " " := by
  have h0 : formatG p 0 = "0" := by rw [formatG, if_pos rfl]
  constructor
  · rw [formatSI, if_pos rfl]
  · rw [formatSI, if_pos rfl, formatNum, h0]

theorem formatSI_zero_witness :
    0 < 3 ∧ formatSI 0 3 FormatSpec.empty = formatNum FormatSpec.empty 3 0 ++ " " ∧
      formatSI 0 3 FormatSpec.empty = "0 " :=
  ⟨by decide, (formatSI_zero 3 FormatSpec.empty (by decide)).1, by decide⟩

/-- C7: for every positive `x`, `formatSI(-x, 3, '')` differs from
`formatSI(x, 3, '')` only by a leading minus sign: the base-1000
classification of `-x` equals that of `x` (it uses the absolute value), the
scaled mantissa is negated, and both land on the same prefix. -/
theorem formatSI_neg_symm (x : ℚ) (hx : 0 < x) :
    formatSI (-x) 3 FormatSpec.empty = "-" ++ formatSI x 3 FormatSpec.empty ∧
    baseThousand 3 (-x) = baseThousand 3 x ∧
    shortenedDigits 3 (-x) = -shortenedDigits 3 x ∧
    prefixDict (baseThousand 3 (-x)) = prefixDict (baseThousand 3 x) := by
  refine ⟨?_, baseThousand_neg 3 x, shortened_neg 3 x, by rw [baseThousand_neg]⟩
  rcases hsome : prefixDict (baseThousand 3 x) with _ | sym
  · rw [formatSI_of_none (neg_ne_zero.2 hx.ne') (by rw [baseThousand_neg]; exact hsome),
      formatSI_of_none hx.ne' hsome, formatNum, formatNum, pad_empty, pad_empty,
      roundE_neg, formatG_neg 3 (roundE_pos 3 hx)]
    simp only [String.append_assoc]
  · rw [formatSI_of_some (neg_ne_zero.2 hx.ne') (by rw [baseThousand_neg]; exact hsome),
      formatSI_of_some hx.ne' hsome, formatNum, formatNum, pad_empty, pad_empty,
      shortened_neg, formatG_neg 3 (shortened_pos 3 hx)]
    simp only [String.append_assoc]

theorem formatSI_neg_symm_witness :
    (0:ℚ) < 1234 ∧
    formatSI (-1234) 3 FormatSpec.empty = "-" ++ formatSI 1234 3 FormatSpec.empty ∧
    formatSI (1234 : ℚ) 3 FormatSpec.empty = "1.23 k" ∧
    formatSI (-1234 : ℚ) 3 FormatSpec.empty = "-1.23 k" ∧
    baseThousand 3 (-1234 : ℚ) = 1 ∧ prefixDict 1 = some "k" :=
  ⟨by decide, (formatSI_neg_symm 1234 (by decide)).1, by decide, by decide,
    by decide, by decide⟩

/-- C8: `formatSI` is total: on every input it returns a nonempty string via
one of its three paths — the zero branch, the prefix-found branch, and the
out-of-range fall-through branch — and no other outcome is possible. -/
theorem formatSI_total (x : ℚ) (p : ℕ) (s : FormatSpec) :
    formatSI x p s ≠ "" ∧
    ((x = 0 ∧ formatSI x p s = formatNum s p 0 ++ " ") ∨
     (∃ sym, prefixDict (baseThousand p x) = some sym ∧
        formatSI x p s = formatNum s p (shortenedDigits p x) ++ " " ++ sym) ∨
     (x ≠ 0 ∧ prefixDict (baseThousand p x) = none ∧
        formatSI x p s = formatNum s p (roundE p x) ++ " ")) := by
  by_cases hx : x = 0
  · subst hx
    have he : formatSI 0 p s = formatNum s p 0 ++ " " := by rw [formatSI, if_pos rfl]
    exact ⟨he ▸ append_space_ne_empty _, Or.inl ⟨rfl, he⟩⟩
  · rcases hsome : prefixDict (baseThousand p x) with _ | sym
    · have he := formatSI_of_none (s := s) hx hsome
      exact ⟨he ▸ append_space_ne_empty _, Or.inr (Or.inr ⟨hx, rfl, he⟩)⟩
    · have he := formatSI_of_some (s := s) hx hsome
      refine ⟨?_, Or.inr (Or.inl ⟨sym, rfl, he⟩)⟩
      rw [he]
      exact append_ne_empty_left sym (append_space_ne_empty _)

/-- C9: in `Curve.plot_line`, both the `pos is None` path and the
`label is None` path evaluate the undefined capitalized identifier `Return`
instead of an early-exit keyword, so such a call raises `NameError` and does
not return normally, immediately after the line has been drawn. -/
theorem plot_line_return_typo (func : ℚ → ℚ) (min_ max_ : ℚ) (pos : Option ℚ)
    (label : Option String) (h : pos = none ∨ label = none) :
    (plot_line func min_ max_ pos label).outcome
      = Outcome.raised (PyErr.nameError "Return") ∧
    (plot_line func min_ max_ pos label).outcome ≠ Outcome.normal ∧
    (plot_line func min_ max_ pos label).effects
      = [DrawCmd.line (min_, func min_) (max_, func max_)] := by
  have heval : plot_line func min_ max_ pos label
      = { effects := [DrawCmd.line (min_, func min_) (max_, func max_)],
          outcome := Outcome.raised (PyErr.nameError "Return") } := by
    rcases h with h | h
    · subst h
      rfl
    · subst h
      cases pos <;> rfl
  rw [heval]
  exact ⟨rfl, by simp, rfl⟩

theorem plot_line_return_typo_witness :
    ((none : Option ℚ) = none ∨ (some "f" : Option String) = none) ∧
    (plot_line (fun t => t) 0 1 none (some "f")).outcome
      = Outcome.raised (PyErr.nameError "Return") ∧
    (plot_line (fun t => t) 0 1 none (some "f")).outcome ≠ Outcome.normal :=
  ⟨Or.inl rfl,
    (plot_line_return_typo (fun t => t) 0 1 none (some "f") (Or.inl rfl)).1,
    (plot_line_return_typo (fun t => t) 0 1 none (some "f") (Or.inl rfl)).2.1⟩

/-- C10: `Curve.draw_connecting_hline` restores the y-limits it saved before
adding the vertical line, so the axis's y-limits after the call equal their
values before it, whatever rescaling the library applies; symmetrically,
`Curve.draw_connecting_vline` leaves the x-limits unchanged. -/
theorem connecting_lines_preserve_limits
    (autoscale : AxState → (ℚ × ℚ) × (ℚ × ℚ)) (func : ℚ → ℚ) (x pos : ℚ)
    (label : Option String) (ax : AxState) :
    (draw_connecting_hline autoscale func x label pos ax).ylim = ax.ylim ∧
    (draw_connecting_vline autoscale func x label pos ax).xlim = ax.xlim := by
  constructor
  · cases label <;> rfl
  · rfl

end ThesisTools
